import Mathlib

/-!
Shallow embedding of the request-assembly and response-classification
pipeline of the `yahc` command-line HTTP client (src/main.rs and
src/request_items.rs), together with proofs of its specified properties.

Machine integers (`u16` status codes, `i32` exit codes, `u64` file sizes)
are modelled as `Nat`/`Int`; none of the modelled computations can
overflow their Rust types on the values that occur.
-/

/-- JSON values as carried by `RequestItem::JSONField` (serde_json::Value).
Numbers are modelled as integers; no claim depends on numeric semantics. -/
inductive JsonValue where
  | null
  | bool (b : Bool)
  | num (n : Int)
  | str (s : String)
  | arr (elems : List JsonValue)
  | obj (fields : List (String × JsonValue))

/-- The classified request items, as consumed by `request_items.rs`
(the enum itself is declared in the CLI module, outside the embedded
sources; variant names follow the match arms in `request_items.rs` and
the spec's data model). -/
inductive RequestItem where
  | HttpHeader (key value : String)
  | HttpHeaderToUnset (key : String)
  | UrlParam (key value : String)
  | DataField (key value : String)
  | JSONField (key : String) (value : JsonValue)
  | FormFile (key path : String)

/-- One part of a multipart form: `multipart::Form::text` or
`multipart::Form::file` (the file is kept as its path; reading it is I/O
outside the embedding). -/
inductive FormPart where
  | text (name value : String)
  | file (name path : String)

/-- The request body variants: `Body` from `request_items.rs`
(`Json`, `Form`, `Multipart`), extended with `Raw` which `main.rs`
constructs from piped stdin bytes. The JSON map is an insertion-ordered
association list (serde_json map semantics: inserting an existing key
replaces its value in place). -/
inductive Body where
  | Json (fields : List (String × JsonValue))
  | Form (fields : List (String × String))
  | Multipart (parts : List FormPart)
  | Raw (bytes : List Nat)

/-- `serde_json::Map::insert`: replace the value in place when the key is
already present, otherwise append at the end. -/
def jmInsert : List (String × JsonValue) → String → JsonValue → List (String × JsonValue)
  | [], k, v => [(k, v)]
  | (k', v') :: rest, k, v =>
    if k' = k then (k', v) :: rest else (k', v') :: jmInsert rest k v

/-- `serde_json::Map::get`: the value stored at a key, if any. -/
def jmLookup : List (String × JsonValue) → String → Option JsonValue
  | [], _ => none
  | (k', v') :: rest, k => if k' = k then some v' else jmLookup rest k

/-- The error message returned by `RequestItems::body` when a `FormFile`
item appears while the body is JSON-encoded. -/
def fileInJsonErr : String :=
  "Sending Files is not supported when the request body is in JSON format"

/-- The error message returned by `RequestItems::body` when a `JSONField`
item appears while form mode is active. -/
def jsonInFormErr : String :=
  "JSON values are not supported in Form fields"

/-- The spec's `IncompatibleBodyFields` error taxon: it covers both
concrete messages produced by `RequestItems::body`. -/
def isIncompatibleBodyFields (e : String) : Bool :=
  e == fileInJsonErr || e == jsonInFormErr

/-- The `for item in &self.0` loop of `RequestItems::body` in JSON mode
(`!as_form`): fold the items into a serde_json map, aborting at the first
`FormFile`. -/
def bodyJsonLoop : List RequestItem → List (String × JsonValue) →
    Except String (List (String × JsonValue))
  | [], acc => .ok acc
  | item :: rest, acc =>
    match item with
    | .JSONField key value => bodyJsonLoop rest (jmInsert acc key value)
    | .DataField key value => bodyJsonLoop rest (jmInsert acc key (.str value))
    | .FormFile _ _ => .error fileInJsonErr
    | _ => bodyJsonLoop rest acc

/-- The `for item in &self.0` loop of `RequestItems::body` in form mode:
collect text fields and files in order, aborting at the first
`JSONField`. -/
def bodyFormLoop : List RequestItem → List (String × String) → List (String × String) →
    Except String (List (String × String) × List (String × String))
  | [], text_fields, files => .ok (text_fields, files)
  | item :: rest, text_fields, files =>
    match item with
    | .JSONField _ _ => .error jsonInFormErr
    | .DataField key value => bodyFormLoop rest (text_fields ++ [(key, value)]) files
    | .FormFile key value => bodyFormLoop rest text_fields (files ++ [(key, value)])
    | _ => bodyFormLoop rest text_fields files

/-- `RequestItems::body(as_form)` from `request_items.rs`: decide the
body encoding from the classified items and the form flag. -/
def RequestItems.body (items : List RequestItem) (as_form : Bool) :
    Except String (Option Body) :=
  if !as_form then
    match bodyJsonLoop items [] with
    | .error e => .error e
    | .ok m => if m.length > 0 then .ok (some (.Json m)) else .ok none
  else
    match bodyFormLoop items [] [] with
    | .error e => .error e
    | .ok (text_fields, files) =>
      match text_fields.length, files.length with
      | 0, 0 => .ok none
      | _ + 1, 0 => .ok (some (.Form text_fields))
      | _, _ => .ok (some (.Multipart
          (text_fields.map (fun p => FormPart.text p.1 p.2) ++
           files.map (fun p => FormPart.file p.1 p.2))))

/-- The exit-code match in `inner_main` (`main.rs`): pure function of the
status code and the follow / check-status / download flags. -/
def classify (status : Nat) (follow check_status download : Bool) : Int :=
  if !(check_status || download) then 0
  else if 300 ≤ status ∧ status ≤ 399 ∧ follow = false then 3
  else if 400 ≤ status ∧ status ≤ 499 then 4
  else if 500 ≤ status ∧ status ≤ 599 then 5
  else 0

/-- The Response Classifier policy as the spec words it: exit 0 unless
`check-status` or `download` is requested; when one is requested, 3xx
while not following redirects yields 3, 4xx yields 4, 5xx yields 5, and
anything else yields 0. -/
def specClassify (status : Nat) (follow check_status download : Bool) : Int :=
  if check_status = false ∧ download = false then 0
  else if 300 ≤ status ∧ status ≤ 399 ∧ follow = false then 3
  else if 400 ≤ status ∧ status ≤ 499 then 4
  else if 500 ≤ status ∧ status ≤ 599 then 5
  else 0

/-- `true` iff the item sequence contains a `FormFile` item. -/
def hasFormFile : List RequestItem → Bool
  | [] => false
  | .FormFile _ _ :: _ => true
  | _ :: rest => hasFormFile rest

/-- `true` iff the item sequence contains a `JSONField` item. -/
def hasJSONField : List RequestItem → Bool
  | [] => false
  | .JSONField _ _ :: _ => true
  | _ :: rest => hasJSONField rest

/-- The JSON-body contribution of one item: `JSONField` contributes its
parsed value, `DataField` contributes its value as a JSON string, other
items contribute nothing. -/
def jsonContrib : RequestItem → Option (String × JsonValue)
  | .JSONField key value => some (key, value)
  | .DataField key value => some (key, .str value)
  | _ => none

/-- The JSON value the spec assigns to a name: the value of the last
JSON-contributing item with that name (last occurrence of a duplicate
name wins). -/
def lastValue (items : List RequestItem) (k : String) : Option JsonValue :=
  (((items.filterMap jsonContrib).filter (fun p => p.1 == k)).getLast?).map (fun p => p.2)

/-- The form-text contribution of one item. -/
def dataKV : RequestItem → Option (String × String)
  | .DataField key value => some (key, value)
  | _ => none

/-- The form-file contribution of one item. -/
def fileKV : RequestItem → Option (String × String)
  | .FormFile key path => some (key, path)
  | _ => none

/-- The error message returned by `inner_main` when stdin data and
key=value body fields are both present (the spec's
`ConflictingBodySources`). -/
def conflictingBodyErr : String :=
  "Request body (from stdin) and Request data (key=value) cannot be mixed"

/-- The `let body = match request_items.body(...)` step of `inner_main`:
merge the assembled body with piped stdin. `ignore_stdin` is true when
stdin is a terminal (nothing piped) or explicitly ignored; `stdin_bytes`
is the raw piped byte stream. -/
def resolveBody (assembled : Except String (Option Body)) (ignore_stdin : Bool)
    (stdin_bytes : List Nat) : Except String (Option Body) :=
  match assembled with
  | .error e => .error e
  | .ok (some b) =>
    if !ignore_stdin then .error conflictingBodyErr else .ok (some b)
  | .ok none =>
    if !ignore_stdin then .ok (some (.Raw stdin_bytes)) else .ok none

/-- HTTP methods (reqwest::Method's standard set). -/
inductive Method where
  | GET | POST | PUT | DELETE | HEAD | OPTIONS | CONNECT | PATCH | TRACE

/-- The `args.method.unwrap_or_else(...)` step of `inner_main`: an
explicit method wins; otherwise POST when a body is present, GET when
not. -/
def chooseMethod (explicit : Option Method) (body : Option Body) : Method :=
  match explicit with
  | some m => m
  | none => if body.isSome then .POST else .GET

/-- `HeaderMap::insert`: replace the value in place when the key is
present, else append. `HeaderName` is case-insensitive and normalized to
lowercase at construction, so the embedding stores and compares names
already normalized. -/
def hmInsert : List (String × String) → String → String → List (String × String)
  | [], k, v => [(k, v)]
  | (k', v') :: rest, k, v =>
    if k' = k then (k', v) :: rest else (k', v') :: hmInsert rest k v

/-- `HeaderMap::remove`: drop every entry with the given name. -/
def hmRemove (m : List (String × String)) (k : String) : List (String × String) :=
  m.filter fun p => p.1 != k

/-- `HeaderMap::get`. -/
def hmLookup : List (String × String) → String → Option String
  | [], _ => none
  | (k', v') :: rest, k => if k' = k then some v' else hmLookup rest k

/-- `HeaderMap::contains_key`. -/
def hmContains (m : List (String × String)) (k : String) : Bool :=
  m.any fun p => p.1 == k

/-- The three headers `inner_main` sets on every request before the body
branch: Accept-Encoding, Connection and User-Agent. -/
def defaultHeaders (user_agent : String) : List (String × String) :=
  [("accept-encoding", "gzip, deflate"),
   ("connection", "keep-alive"),
   ("user-agent", user_agent)]

/-- The headers contributed by the `match body` branch of `inner_main`:
the explicit Accept header of each arm, plus the Content-Type header the
arm's body encoder sets (`.json`/`.form` set it; the multipart encoder's
boundary parameter is elided; for `Raw` it is set explicitly). -/
def bodyHeaders : Option Body → List (String × String)
  | some (.Form _) =>
    [("accept", "*/*"), ("content-type", "application/x-www-form-urlencoded")]
  | some (.Multipart _) =>
    [("accept", "*/*"), ("content-type", "multipart/form-data")]
  | some (.Json _) =>
    [("accept", "application/json, */*"), ("content-type", "application/json")]
  | some (.Raw _) =>
    [("accept", "application/json, */*"), ("content-type", "application/json")]
  | none => [("accept", "*/*")]

/-- The Accept header value the spec assigns to each body variant. -/
def acceptValue : Option Body → String
  | some (.Json _) => "application/json, */*"
  | some (.Raw _) => "application/json, */*"
  | _ => "*/*"

/-- The header map of the finalized request, following the order of
`inner_main`: defaults, body-derived headers, the resume Range header,
basic auth (`basic_credentials` stands for the already-encoded
credentials), bearer auth, the explicitly-set headers, and last the
removal of every name in `headers_to_unset`. `existing_file_size` models
`get_file_size(args.output)`: the size of the file at the output path,
`none` when no file exists there. -/
def finalizeHeaders (user_agent : String) (body : Option Body) (resume : Bool)
    (existing_file_size : Option Nat) (basic_credentials : Option String)
    (bearer : Option String) (user_headers : List (String × String))
    (headers_to_unset : List String) : List (String × String) :=
  let m := (defaultHeaders user_agent).foldl (fun m p => hmInsert m p.1 p.2) []
  let m := (bodyHeaders body).foldl (fun m p => hmInsert m p.1 p.2) m
  let m := match resume, existing_file_size with
    | true, some n => hmInsert m "range" ("bytes=" ++ toString n ++ "-")
    | _, _ => m
  let m := match basic_credentials with
    | some c => hmInsert m "authorization" ("Basic " ++ c)
    | none => m
  let m := match bearer with
    | some t => hmInsert m "authorization" ("Bearer " ++ t)
    | none => m
  let m := user_headers.foldl (fun m p => hmInsert m p.1 p.2) m
  headers_to_unset.foldl (fun m h => hmRemove m h) m

/-- The download gate of `inner_main`: `download_file` is invoked iff
download mode is active and the classified exit code is 0. -/
def downloadPerformed (status : Nat) (follow check_status download : Bool) : Bool :=
  download && (classify status follow check_status download == 0)

/-- One step of first-occurrence key deduplication. -/
def dedupStep (ks : List String) (k : String) : List String :=
  if k ∈ ks then ks else ks ++ [k]

/-- The keys of a name/value sequence in first-occurrence order, used to
state that the assembled JSON mapping is insertion-ordered. -/
def dedupKeys (ks : List String) : List String :=
  ks.foldl dedupStep []

/-- C1: the process exit code is 0 unless the check-status flag or
download mode is requested; when one of them is, a 3xx status while not
following redirects yields 3, 4xx yields 4, 5xx yields 5, and any other
status yields 0 — including the spec's concrete instances
classify(200,any,true,false)=0, classify(301,false,true,false)=3,
classify(404,any,true,false)=4, classify(503,any,false,false)=0. -/
theorem classify_matches_spec :
    (∀ (status : Nat) (follow check_status download : Bool),
      classify status follow check_status download =
        specClassify status follow check_status download)
    ∧ (∀ follow : Bool, classify 200 follow true false = 0)
    ∧ classify 301 false true false = 3
    ∧ (∀ follow : Bool, classify 404 follow true false = 4)
    ∧ (∀ follow : Bool, classify 503 follow false false = 0) := by
  refine ⟨?_, ?_, ?_, ?_, ?_⟩
  · intro status follow check_status download
    cases check_status <;> cases download <;> rfl
  · intro follow; cases follow <;> rfl
  · rfl
  · intro follow; cases follow <;> rfl
  · intro follow; cases follow <;> rfl

/-- C5: when stdin is piped (`ignore_stdin = false`), an absent assembled
body is replaced by the raw stdin byte stream used verbatim, and a present
assembled body is a hard error (the spec's `ConflictingBodySources`),
returned before any request is built or sent. -/
theorem stdin_body_merge (items : List RequestItem) (as_form : Bool)
    (stdin_bytes : List Nat) :
    (RequestItems.body items as_form = .ok none →
      resolveBody (RequestItems.body items as_form) false stdin_bytes =
        .ok (some (.Raw stdin_bytes)))
    ∧ (∀ b, RequestItems.body items as_form = .ok (some b) →
      resolveBody (RequestItems.body items as_form) false stdin_bytes =
        .error conflictingBodyErr) := by
  constructor
  · intro h; rw [h]; rfl
  · intro b h; rw [h]; rfl

theorem stdin_body_merge_witness :
    resolveBody (RequestItems.body [] false) false [104, 105] =
      .ok (some (.Raw [104, 105]))
    ∧ resolveBody (RequestItems.body [.DataField "a" "b"] false) false [104, 105] =
      .error conflictingBodyErr :=
  ⟨(stdin_body_merge [] false [104, 105]).1 rfl,
   (stdin_body_merge [.DataField "a" "b"] false [104, 105]).2
     (.Json [("a", .str "b")]) rfl⟩

/-- C9: when no HTTP method is specified on the command line, the request
method defaults to POST exactly when a body is present and to GET exactly
when it is absent; an explicit method is always respected. -/
theorem default_method (b : Option Body) :
    (∀ m, chooseMethod (some m) b = m)
    ∧ (chooseMethod none b = .POST ↔ b.isSome = true)
    ∧ (chooseMethod none b = .GET ↔ b = none) := by
  refine ⟨fun m => rfl, ?_, ?_⟩ <;> cases b <;> simp [chooseMethod]

/-- C10: in download mode the download is performed only when the
classified exit code is 0 — for a 3xx status without follow, a 4xx status
or a 5xx status, `download_file` is never invoked. -/
theorem download_gate (status : Nat) (follow check_status : Bool) :
    ((300 ≤ status ∧ status ≤ 399 ∧ follow = false) ∨
        (400 ≤ status ∧ status ≤ 499) ∨ (500 ≤ status ∧ status ≤ 599) →
      downloadPerformed status follow check_status true = false)
    ∧ (∀ download, downloadPerformed status follow check_status download = true →
      classify status follow check_status download = 0 ∧ download = true) := by
  constructor
  · intro h
    simp only [downloadPerformed, classify, Bool.or_true, Bool.not_true,
      Bool.false_eq_true, if_false, Bool.true_and]
    rcases h with ⟨h1, h2, h3⟩ | h | h
    · rw [if_pos ⟨h1, h2, h3⟩]; rfl
    · rw [if_neg (fun hc => by obtain ⟨a, b, -⟩ := hc; omega), if_pos h]; rfl
    · rw [if_neg (fun hc => by obtain ⟨a, b, -⟩ := hc; omega),
        if_neg (fun hc => by omega), if_pos h]; rfl
  · intro download hd
    cases download
    · simp [downloadPerformed] at hd
    · simp only [downloadPerformed, Bool.true_and] at hd
      exact ⟨by simpa using hd, rfl⟩

theorem download_gate_witness :
    downloadPerformed 404 true true true = false ∧
      classify 200 true true true = 0 :=
  ⟨(download_gate 404 true true).1 (Or.inr (Or.inl (by omega))),
   ((download_gate 200 true true).2 true rfl).1⟩

theorem bodyJsonLoop_error_of_file (items : List RequestItem) :
    ∀ acc, hasFormFile items = true → bodyJsonLoop items acc = .error fileInJsonErr := by
  induction items with
  | nil => intro acc h; simp [hasFormFile] at h
  | cons item rest ih =>
    intro acc h
    cases item <;> simp only [hasFormFile] at h <;>
      simp only [bodyJsonLoop] <;> first | rfl | exact ih _ h

theorem bodyFormLoop_error_of_json (items : List RequestItem) :
    ∀ text_fields files, hasJSONField items = true →
      bodyFormLoop items text_fields files = .error jsonInFormErr := by
  induction items with
  | nil => intro tf fs h; simp [hasJSONField] at h
  | cons item rest ih =>
    intro tf fs h
    cases item <;> simp only [hasJSONField] at h <;>
      simp only [bodyFormLoop] <;> first | rfl | exact ih _ _ h

/-- C2: a token sequence containing both a `FileField` and a `JsonField`
makes body assembly fail with the `IncompatibleBodyFields` error in
either mode, and a `JsonField` while form mode is active always does. -/
theorem incompatible_body_fields (items : List RequestItem) (as_form : Bool) :
    (hasFormFile items = true → hasJSONField items = true →
      ∃ e, RequestItems.body items as_form = .error e ∧
        isIncompatibleBodyFields e = true)
    ∧ (hasJSONField items = true →
      RequestItems.body items true = .error jsonInFormErr) := by
  constructor
  · intro hf hj
    cases as_form
    · exact ⟨fileInJsonErr,
        by simp [RequestItems.body, bodyJsonLoop_error_of_file items [] hf],
        by decide⟩
    · exact ⟨jsonInFormErr,
        by simp [RequestItems.body, bodyFormLoop_error_of_json items [] [] hj],
        by decide⟩
  · intro hj
    simp [RequestItems.body, bodyFormLoop_error_of_json items [] [] hj]

theorem incompatible_body_fields_witness :
    (∃ e, RequestItems.body [.FormFile "avatar" "./pic.png", .JSONField "active" (.bool true)]
        false = .error e ∧ isIncompatibleBodyFields e = true)
    ∧ RequestItems.body [.JSONField "active" (.bool true)] true = .error jsonInFormErr :=
  ⟨(incompatible_body_fields
      [.FormFile "avatar" "./pic.png", .JSONField "active" (.bool true)] false).1
      rfl rfl,
   (incompatible_body_fields [.JSONField "active" (.bool true)] true).2 rfl⟩

theorem bodyFormLoop_collects (items : List RequestItem) :
    ∀ text_fields files, hasJSONField items = false →
      bodyFormLoop items text_fields files =
        .ok (text_fields ++ items.filterMap dataKV, files ++ items.filterMap fileKV) := by
  induction items with
  | nil => intro tf fs _; simp [bodyFormLoop]
  | cons item rest ih =>
    intro tf fs h
    cases item with
    | JSONField key value => exact absurd h (by simp [hasJSONField])
    | DataField key value =>
      simp only [hasJSONField] at h
      simp [bodyFormLoop, dataKV, fileKV, List.filterMap_cons, ih _ _ h]
    | FormFile key path =>
      simp only [hasJSONField] at h
      simp [bodyFormLoop, dataKV, fileKV, List.filterMap_cons, ih _ _ h]
    | HttpHeader key value =>
      simp only [hasJSONField] at h
      simp [bodyFormLoop, dataKV, fileKV, List.filterMap_cons, ih _ _ h]
    | HttpHeaderToUnset key =>
      simp only [hasJSONField] at h
      simp [bodyFormLoop, dataKV, fileKV, List.filterMap_cons, ih _ _ h]
    | UrlParam key value =>
      simp only [hasJSONField] at h
      simp [bodyFormLoop, dataKV, fileKV, List.filterMap_cons, ih _ _ h]

theorem hasFormFile_iff_fileKV (items : List RequestItem) :
    hasFormFile items = true ↔ items.filterMap fileKV ≠ [] := by
  induction items with
  | nil => simp [hasFormFile]
  | cons item rest ih =>
    cases item <;> simp [hasFormFile, fileKV, List.filterMap_cons, ih]

/-- C4: in form mode, with no JSON fields among the items, the body is
`Multipart` iff at least one `FileField` is present (text parts first in
classified order, then file parts), `Form` when only `DataField` items
exist, and absent when neither exists. -/
theorem form_body_shape (items : List RequestItem) (h : hasJSONField items = false) :
    (RequestItems.body items true =
      if items.filterMap fileKV = [] then
        (if items.filterMap dataKV = [] then .ok none
         else .ok (some (.Form (items.filterMap dataKV))))
      else .ok (some (.Multipart
        ((items.filterMap dataKV).map (fun p => FormPart.text p.1 p.2) ++
         (items.filterMap fileKV).map (fun p => FormPart.file p.1 p.2)))))
    ∧ ((∃ parts, RequestItems.body items true = .ok (some (.Multipart parts))) ↔
        hasFormFile items = true) := by
  have hloop := bodyFormLoop_collects items [] [] h
  simp only [List.nil_append] at hloop
  have key : RequestItems.body items true =
      if items.filterMap fileKV = [] then
        (if items.filterMap dataKV = [] then .ok none
         else .ok (some (.Form (items.filterMap dataKV))))
      else .ok (some (.Multipart
        ((items.filterMap dataKV).map (fun p => FormPart.text p.1 p.2) ++
         (items.filterMap fileKV).map (fun p => FormPart.file p.1 p.2)))) := by
    rcases hd : items.filterMap dataKV with _ | ⟨p, ds⟩ <;>
      rcases hf : items.filterMap fileKV with _ | ⟨q, fls⟩ <;>
        rw [hd, hf] at hloop <;>
          simp [RequestItems.body, hloop, hd, hf]
  refine ⟨key, ?_, ?_⟩
  · rintro ⟨parts, hp⟩
    rw [hasFormFile_iff_fileKV]
    intro hfe
    rw [key, if_pos hfe] at hp
    rcases hd : items.filterMap dataKV with _ | ⟨p, ds⟩ <;> simp [hd] at hp
  · intro hff
    rw [key, if_neg ((hasFormFile_iff_fileKV items).mp hff)]
    exact ⟨_, rfl⟩

theorem form_body_shape_witness :
    RequestItems.body [.DataField "name" "Bob", .FormFile "avatar" "pic.png"] true =
      .ok (some (.Multipart [.text "name" "Bob", .file "avatar" "pic.png"])) := by
  have h := (form_body_shape
    [.DataField "name" "Bob", .FormFile "avatar" "pic.png"] (by decide)).1
  simpa using h

theorem jmLookup_jmInsert_self (m : List (String × JsonValue)) (k : String)
    (v : JsonValue) : jmLookup (jmInsert m k v) k = some v := by
  induction m with
  | nil => simp [jmInsert, jmLookup]
  | cons p rest ih =>
    obtain ⟨k0, v0⟩ := p
    by_cases hk : k0 = k
    · simp [jmInsert, hk, jmLookup]
    · simp [jmInsert, hk, jmLookup, ih]

theorem jmLookup_jmInsert_other (m : List (String × JsonValue)) (k : String)
    (v : JsonValue) (q : String) (h : q ≠ k) :
    jmLookup (jmInsert m k v) q = jmLookup m q := by
  have hkq : ¬(k = q) := fun hh => h hh.symm
  induction m with
  | nil => simp [jmInsert, jmLookup, hkq]
  | cons p rest ih =>
    obtain ⟨k0, v0⟩ := p
    by_cases hk : k0 = k
    · simp [jmInsert, hk, jmLookup, hkq]
    · by_cases hq : k0 = q
      · simp [jmInsert, hk, jmLookup, hq, h]
      · simp [jmInsert, hk, jmLookup, hq, ih]

theorem optLast_cons {α : Type} (a : α) (l : List α) :
    (a :: l).getLast? = match l.getLast? with
      | some v => some v
      | none => some a := by
  induction l generalizing a with
  | nil => rfl
  | cons b l' ih =>
    rw [List.getLast?_cons_cons, ih b]
    cases hl : l'.getLast? <;> simp [hl]

theorem lastValue_cons (item : RequestItem) (rest : List RequestItem) (k : String) :
    lastValue (item :: rest) k =
      match lastValue rest k, jsonContrib item with
      | some v, _ => some v
      | none, some (key, v) => if key == k then some v else none
      | none, none => none := by
  cases hc : jsonContrib item with
  | none =>
    have heq : lastValue (item :: rest) k = lastValue rest k := by
      simp only [lastValue, List.filterMap_cons, hc]
    rw [heq]
    cases lastValue rest k <;> rfl
  | some p =>
    obtain ⟨key, v⟩ := p
    simp only [lastValue, List.filterMap_cons, hc, List.filter_cons]
    by_cases hk : (key == k) = true
    · rw [if_pos hk, optLast_cons]
      cases hF : ((rest.filterMap jsonContrib).filter (fun p => p.1 == k)).getLast? <;>
        simp [hF, hk]
    · rw [if_neg hk]
      cases hF : ((rest.filterMap jsonContrib).filter (fun p => p.1 == k)).getLast? <;>
        simp [hF, hk]

theorem jmInsert_keys (m : List (String × JsonValue)) (k : String) (v : JsonValue) :
    (jmInsert m k v).map Prod.fst = dedupStep (m.map Prod.fst) k := by
  induction m with
  | nil => simp [jmInsert, dedupStep]
  | cons p rest ih =>
    obtain ⟨k0, v0⟩ := p
    by_cases hk : k0 = k
    · subst hk
      simp [jmInsert, dedupStep]
    · by_cases hm : k ∈ rest.map Prod.fst
      · simp [jmInsert, hk, dedupStep, ih, hm, Ne.symm hk]
      · simp [jmInsert, hk, dedupStep, ih, hm, Ne.symm hk]

theorem dedupFoldl_ne_nil (ks : List String) :
    ∀ a : List String, a ≠ [] → ks.foldl dedupStep a ≠ [] := by
  induction ks with
  | nil => intro a ha; simpa using ha
  | cons k ks' ih =>
    intro a ha
    simp only [List.foldl_cons]
    apply ih
    by_cases hm : k ∈ a <;> simp [dedupStep, hm, ha]

theorem dedupKeys_eq_nil {ks : List String} (h : dedupKeys ks = []) : ks = [] := by
  cases ks with
  | nil => rfl
  | cons k ks' =>
    have heq : dedupKeys (k :: ks') = ks'.foldl dedupStep [k] := by
      simp [dedupKeys, dedupStep]
    exact absurd (heq ▸ h) (dedupFoldl_ne_nil ks' [k] (by simp))

theorem bodyJsonLoop_spec (items : List RequestItem) :
    ∀ acc, hasFormFile items = false →
      ∃ m, bodyJsonLoop items acc = .ok m
        ∧ (∀ k, jmLookup m k = match lastValue items k with
            | some v => some v
            | none => jmLookup acc k)
        ∧ m.map Prod.fst =
            ((items.filterMap jsonContrib).map Prod.fst).foldl dedupStep
              (acc.map Prod.fst) := by
  induction items with
  | nil =>
    intro acc _
    exact ⟨acc, rfl, fun k => by simp [lastValue], by simp⟩
  | cons item rest ih =>
    intro acc h
    cases item with
    | FormFile key path => exact absurd h (by simp [hasFormFile])
    | JSONField key value =>
      simp only [hasFormFile] at h
      obtain ⟨m, hm, hlook, hkeys⟩ := ih (jmInsert acc key value) h
      refine ⟨m, by simpa [bodyJsonLoop] using hm, ?_, ?_⟩
      · intro k
        rw [hlook k, lastValue_cons]
        cases hl : lastValue rest k with
        | some v => simp [jsonContrib]
        | none =>
          simp only [jsonContrib]
          by_cases hk : (key == k) = true
          · have hkk : key = k := by simpa using hk
            subst hkk
            simp [hk, jmLookup_jmInsert_self]
          · have hne : k ≠ key := fun hh => hk (by simp [hh])
            simp [hk, jmLookup_jmInsert_other acc key value k hne]
      · rw [hkeys]
        simp only [List.filterMap_cons, jsonContrib, List.map_cons,
          List.foldl_cons, jmInsert_keys]
    | DataField key value =>
      simp only [hasFormFile] at h
      obtain ⟨m, hm, hlook, hkeys⟩ := ih (jmInsert acc key (.str value)) h
      refine ⟨m, by simpa [bodyJsonLoop] using hm, ?_, ?_⟩
      · intro k
        rw [hlook k, lastValue_cons]
        cases hl : lastValue rest k with
        | some v => simp [jsonContrib]
        | none =>
          simp only [jsonContrib]
          by_cases hk : (key == k) = true
          · have hkk : key = k := by simpa using hk
            subst hkk
            simp [hk, jmLookup_jmInsert_self]
          · have hne : k ≠ key := fun hh => hk (by simp [hh])
            simp [hk, jmLookup_jmInsert_other acc key (.str value) k hne]
      · rw [hkeys]
        simp only [List.filterMap_cons, jsonContrib, List.map_cons,
          List.foldl_cons, jmInsert_keys]
    | HttpHeader key value =>
      simp only [hasFormFile] at h
      obtain ⟨m, hm, hlook, hkeys⟩ := ih acc h
      refine ⟨m, by simpa [bodyJsonLoop] using hm, ?_, ?_⟩
      · intro k
        rw [hlook k, lastValue_cons]
        cases hl : lastValue rest k <;> simp [jsonContrib]
      · rw [hkeys]
        simp only [List.filterMap_cons, jsonContrib]
    | HttpHeaderToUnset key =>
      simp only [hasFormFile] at h
      obtain ⟨m, hm, hlook, hkeys⟩ := ih acc h
      refine ⟨m, by simpa [bodyJsonLoop] using hm, ?_, ?_⟩
      · intro k
        rw [hlook k, lastValue_cons]
        cases hl : lastValue rest k <;> simp [jsonContrib]
      · rw [hkeys]
        simp only [List.filterMap_cons, jsonContrib]
    | UrlParam key value =>
      simp only [hasFormFile] at h
      obtain ⟨m, hm, hlook, hkeys⟩ := ih acc h
      refine ⟨m, by simpa [bodyJsonLoop] using hm, ?_, ?_⟩
      · intro k
        rw [hlook k, lastValue_cons]
        cases hl : lastValue rest k <;> simp [jsonContrib]
      · rw [hkeys]
        simp only [List.filterMap_cons, jsonContrib]

/-- C3: in JSON mode, body assembly collects the `JsonField`/`DataField`
items into an insertion-ordered mapping (keys in first-occurrence order)
in which the last occurrence of a duplicate name wins, `DataField` values
stored as JSON strings and `JsonField` values as their parsed JSON; an
empty mapping yields an absent body, a non-empty one yields `Body::Json`. -/
theorem json_body_map (items : List RequestItem) (h : hasFormFile items = false) :
    ∃ m, bodyJsonLoop items [] = .ok m
      ∧ (∀ k, jmLookup m k = lastValue items k)
      ∧ m.map Prod.fst = dedupKeys ((items.filterMap jsonContrib).map Prod.fst)
      ∧ RequestItems.body items false =
          (if m.length > 0 then .ok (some (.Json m)) else .ok none)
      ∧ (m = [] ↔ items.filterMap jsonContrib = []) := by
  obtain ⟨m, hm, hlook, hkeys⟩ := bodyJsonLoop_spec items [] h
  refine ⟨m, hm, ?_, ?_, ?_, ?_, ?_⟩
  · intro k
    rw [hlook k]
    cases hl : lastValue items k <;> simp [jmLookup]
  · simpa [dedupKeys] using hkeys
  · simp [RequestItems.body, hm]
  · intro hme
    have h2 := hkeys
    rw [hme] at h2
    simp only [List.map_nil] at h2
    have hk0 : dedupKeys ((items.filterMap jsonContrib).map Prod.fst) = [] := by
      rw [dedupKeys]; exact h2.symm
    exact List.map_eq_nil_iff.mp (dedupKeys_eq_nil hk0)
  · intro hce
    have hmap : m.map Prod.fst = [] := by
      rw [hkeys, hce]
      simp
    exact List.map_eq_nil_iff.mp hmap

theorem json_body_map_witness :
    RequestItems.body [.DataField "name" "Bob", .JSONField "age" (.num 30)] false =
      .ok (some (.Json [("name", .str "Bob"), ("age", .num 30)])) := by
  obtain ⟨m, hm, hlook, hkeys, hbody, hemp⟩ :=
    json_body_map [.DataField "name" "Bob", .JSONField "age" (.num 30)] (by decide)
  have hc : bodyJsonLoop [.DataField "name" "Bob", .JSONField "age" (.num 30)] [] =
      .ok [("name", JsonValue.str "Bob"), ("age", JsonValue.num 30)] := rfl
  rw [hm] at hc
  injection hc with hmc
  rw [hmc] at hbody
  simpa using hbody

theorem hmContains_hmRemove_self (m : List (String × String)) (k : String) :
    hmContains (hmRemove m k) k = false := by
  simp only [hmContains, hmRemove]
  rw [List.any_eq_false]
  intro p hp
  have h2 := (List.mem_filter.mp hp).2
  simpa using h2

theorem hmContains_false_hmRemove (m : List (String × String)) (k x : String)
    (h : hmContains m k = false) : hmContains (hmRemove m x) k = false := by
  simp only [hmContains, hmRemove] at h ⊢
  rw [List.any_eq_false] at h ⊢
  intro p hp
  exact h p (List.mem_filter.mp hp).1

theorem hmContains_foldl_remove_false (hs : List String) :
    ∀ (m : List (String × String)) (k : String), hmContains m k = false →
      hmContains (hs.foldl (fun m h => hmRemove m h) m) k = false := by
  induction hs with
  | nil => intro m k h; exact h
  | cons x hs' ih =>
    intro m k h
    exact ih _ _ (hmContains_false_hmRemove m k x h)

theorem hmContains_foldl_remove_mem (hs : List String) :
    ∀ (m : List (String × String)) (k : String), k ∈ hs →
      hmContains (hs.foldl (fun m h => hmRemove m h) m) k = false := by
  induction hs with
  | nil => intro m k h; simp at h
  | cons x hs' ih =>
    intro m k h
    rcases List.mem_cons.mp h with rfl | h'
    · exact hmContains_foldl_remove_false hs' _ _ (hmContains_hmRemove_self m k)
    · exact ih _ _ h'

/-- C6: for every header name in the unset list, the finalized request
contains no header of that name — the removal is the very last step, so
`HeaderToUnset` takes precedence over every default, body-derived, auth,
resume and explicitly-set header of the same name. -/
theorem unset_header_absent (user_agent : String) (body : Option Body) (resume : Bool)
    (existing_file_size : Option Nat) (basic_credentials bearer : Option String)
    (user_headers : List (String × String)) (headers_to_unset : List String)
    (h : String) (hmem : h ∈ headers_to_unset) :
    hmContains (finalizeHeaders user_agent body resume existing_file_size
      basic_credentials bearer user_headers headers_to_unset) h = false :=
  hmContains_foldl_remove_mem headers_to_unset _ h hmem

theorem unset_header_absent_witness :
    hmContains (finalizeHeaders "xh/0.0.0" (some (.Json [("a", .str "b")])) true
      (some 1024) (some "dXNlcjpwYXNz") (some "tok")
      [("x-api-key", "abc"), ("accept", "text/html")]
      ["accept", "x-api-key"]) "accept" = false :=
  unset_header_absent "xh/0.0.0" (some (.Json [("a", .str "b")])) true
    (some 1024) (some "dXNlcjpwYXNz") (some "tok")
    [("x-api-key", "abc"), ("accept", "text/html")]
    ["accept", "x-api-key"] "accept" (by simp)

theorem hmLookup_insert_self (m : List (String × String)) (k v : String) :
    hmLookup (hmInsert m k v) k = some v := by
  induction m with
  | nil => simp [hmInsert, hmLookup]
  | cons p rest ih =>
    obtain ⟨k0, v0⟩ := p
    by_cases hk : k0 = k
    · simp [hmInsert, hk, hmLookup]
    · simp [hmInsert, hk, hmLookup, ih]

theorem hmLookup_insert_other (m : List (String × String)) (k v q : String)
    (h : q ≠ k) : hmLookup (hmInsert m k v) q = hmLookup m q := by
  have hkq : ¬(k = q) := fun hh => h hh.symm
  induction m with
  | nil => simp [hmInsert, hmLookup, hkq]
  | cons p rest ih =>
    obtain ⟨k0, v0⟩ := p
    by_cases hk : k0 = k
    · simp [hmInsert, hk, hmLookup, hkq]
    · by_cases hq : k0 = q
      · simp [hmInsert, hk, hmLookup, hq, h]
      · simp [hmInsert, hk, hmLookup, hq, ih]

theorem hmLookup_foldl_insert (ps : List (String × String)) :
    ∀ (m : List (String × String)) (q : String), (∀ p ∈ ps, p.1 ≠ q) →
      hmLookup (ps.foldl (fun m p => hmInsert m p.1 p.2) m) q = hmLookup m q := by
  induction ps with
  | nil => intro m q _; rfl
  | cons p ps' ih =>
    intro m q hq
    simp only [List.foldl_cons]
    rw [ih _ _ (fun x hx => hq x (List.mem_cons_of_mem p hx))]
    exact hmLookup_insert_other m p.1 p.2 q
      (Ne.symm (hq p (List.mem_cons_self p ps')))

theorem hmLookup_remove_other (m : List (String × String)) (k q : String)
    (h : q ≠ k) : hmLookup (hmRemove m k) q = hmLookup m q := by
  induction m with
  | nil => rfl
  | cons p rest ih =>
    obtain ⟨p1, p2⟩ := p
    simp only [hmRemove, List.filter_cons] at ih ⊢
    by_cases hp : p1 = k
    · have hb : (p1 != k) = false := by simp [hp]
      rw [hb]
      simp only [Bool.false_eq_true, if_false]
      rw [ih]
      have hne : ¬(p1 = q) := by rw [hp]; exact fun hh => h hh.symm
      simp [hmLookup, hne]
    · have hb : (p1 != k) = true := by simp [hp]
      rw [hb]
      simp only [if_true]
      by_cases hpq : p1 = q <;> simp [hmLookup, hpq, ih]

theorem hmLookup_foldl_remove (hs : List String) :
    ∀ (m : List (String × String)) (q : String), (∀ x ∈ hs, x ≠ q) →
      hmLookup (hs.foldl (fun m h => hmRemove m h) m) q = hmLookup m q := by
  induction hs with
  | nil => intro m q _; rfl
  | cons x hs' ih =>
    intro m q hq
    simp only [List.foldl_cons]
    rw [ih _ _ (fun y hy => hq y (List.mem_cons_of_mem x hy))]
    exact hmLookup_remove_other m x q (Ne.symm (hq x (List.mem_cons_self x hs')))

theorem finalize_lookup_stable (user_agent : String) (body : Option Body)
    (resume : Bool) (existing_file_size : Option Nat)
    (basic_credentials bearer : Option String)
    (user_headers : List (String × String)) (headers_to_unset : List String)
    (q : String)
    (hq_range : q ≠ "range" ∨ resume = false ∨ existing_file_size = none)
    (hq_auth : q ≠ "authorization")
    (hu : ∀ p ∈ user_headers, p.1 ≠ q)
    (hx : ∀ x ∈ headers_to_unset, x ≠ q) :
    hmLookup (finalizeHeaders user_agent body resume existing_file_size
        basic_credentials bearer user_headers headers_to_unset) q =
      hmLookup ((bodyHeaders body).foldl (fun m p => hmInsert m p.1 p.2)
        ((defaultHeaders user_agent).foldl (fun m p => hmInsert m p.1 p.2) [])) q := by
  have hA : ∀ (M : List (String × String)) (v : String),
      hmLookup (hmInsert M "authorization" v) q = hmLookup M q := fun M v =>
    hmLookup_insert_other M "authorization" v q hq_auth
  simp only [finalizeHeaders]
  rw [hmLookup_foldl_remove headers_to_unset _ _ hx]
  rw [hmLookup_foldl_insert user_headers _ _ hu]
  cases resume with
  | false =>
    cases bearer <;> cases basic_credentials <;> cases existing_file_size <;>
      simp only [hA]
  | true =>
    cases existing_file_size with
    | none => cases bearer <;> cases basic_credentials <;> simp only [hA]
    | some n =>
      rcases hq_range with hq | hr | hs
      · have hR : ∀ (M : List (String × String)) (v : String),
            hmLookup (hmInsert M "range" v) q = hmLookup M q := fun M v =>
          hmLookup_insert_other M "range" v q hq
        cases bearer <;> cases basic_credentials <;> simp only [hA, hR]
      · exact absurd hr (by simp)
      · exact absurd hs (by simp)

theorem defaultHeaders_names (user_agent : String) (q : String)
    (h1 : q ≠ "accept-encoding") (h2 : q ≠ "connection") (h3 : q ≠ "user-agent") :
    ∀ p ∈ defaultHeaders user_agent, p.1 ≠ q := by
  intro p hp
  simp only [defaultHeaders, List.mem_cons, List.not_mem_nil, or_false] at hp
  rcases hp with rfl | rfl | rfl <;>
    first
      | exact fun hh => h1 hh.symm
      | exact fun hh => h2 hh.symm
      | exact fun hh => h3 hh.symm

theorem bodyHeaders_names (body : Option Body) (q : String)
    (h1 : q ≠ "accept") (h2 : q ≠ "content-type") :
    ∀ p ∈ bodyHeaders body, p.1 ≠ q := by
  rcases body with _ | b
  · intro p hp
    simp only [bodyHeaders, List.mem_singleton] at hp
    subst hp; exact fun hh => h1 hh.symm
  · cases b <;>
      (intro p hp
       simp only [bodyHeaders, List.mem_cons, List.not_mem_nil, or_false] at hp
       rcases hp with rfl | rfl <;>
         first
           | exact fun hh => h1 hh.symm
           | exact fun hh => h2 hh.symm)

/-- C7: when resume is requested and a file exists at the output path,
the finalized request carries exactly `Range: bytes=<size>-` for the
existing file's byte length, injected during request construction; when
resume is not requested or no file exists, no Range header is present
(absent an explicit user Range header or unset). -/
theorem resume_range_header (user_agent : String) (body : Option Body)
    (resume : Bool) (existing_file_size : Option Nat)
    (basic_credentials bearer : Option String)
    (user_headers : List (String × String)) (headers_to_unset : List String)
    (hu : ∀ p ∈ user_headers, p.1 ≠ "range")
    (hx : ∀ x ∈ headers_to_unset, x ≠ "range") :
    (∀ n : Nat, resume = true → existing_file_size = some n →
      hmLookup (finalizeHeaders user_agent body resume existing_file_size
        basic_credentials bearer user_headers headers_to_unset) "range" =
        some ("bytes=" ++ toString n ++ "-"))
    ∧ (resume = false ∨ existing_file_size = none →
      hmLookup (finalizeHeaders user_agent body resume existing_file_size
        basic_credentials bearer user_headers headers_to_unset) "range" = none) := by
  have hdef : ∀ p ∈ defaultHeaders user_agent, p.1 ≠ "range" :=
    defaultHeaders_names user_agent "range" (by decide) (by decide) (by decide)
  have hbody : ∀ p ∈ bodyHeaders body, p.1 ≠ "range" :=
    bodyHeaders_names body "range" (by decide) (by decide)
  constructor
  · intro n hr hs
    subst hr; subst hs
    have hA : ∀ (M : List (String × String)) (v : String),
        hmLookup (hmInsert M "authorization" v) "range" = hmLookup M "range" :=
      fun M v => hmLookup_insert_other M "authorization" v "range" (by decide)
    simp only [finalizeHeaders]
    rw [hmLookup_foldl_remove headers_to_unset _ _ hx]
    rw [hmLookup_foldl_insert user_headers _ _ hu]
    cases bearer <;> cases basic_credentials <;> simp only [hA] <;>
      exact hmLookup_insert_self _ _ _
  · intro hdisj
    rw [finalize_lookup_stable user_agent body resume existing_file_size
      basic_credentials bearer user_headers headers_to_unset "range"
      (Or.inr hdisj) (by decide) hu hx]
    rw [hmLookup_foldl_insert _ _ _ hbody, hmLookup_foldl_insert _ _ _ hdef]
    rfl

theorem resume_range_header_witness :
    hmLookup (finalizeHeaders "xh/0.0.0" none true (some 1024) none none [] [])
        "range" = some "bytes=1024-"
    ∧ hmLookup (finalizeHeaders "xh/0.0.0" none false none none none [] [])
        "range" = none := by
  refine ⟨?_, ?_⟩
  · have h := (resume_range_header "xh/0.0.0" none true (some 1024) none none [] []
      (by simp) (by simp)).1 1024 rfl rfl
    simpa using h
  · exact (resume_range_header "xh/0.0.0" none false none none none [] []
      (by simp) (by simp)).2 (Or.inl rfl)

/-- C8: the Accept header of the finalized request is a pure function of
the body variant — a Json body yields `application/json, */*` together
with an explicit `application/json` content type, Form and Multipart
bodies yield `*/*`, and an absent body yields `*/*` (absent explicit user
Accept/Content-Type headers or unsets of those names). -/
theorem accept_header_from_body (user_agent : String) (body : Option Body)
    (resume : Bool) (existing_file_size : Option Nat)
    (basic_credentials bearer : Option String)
    (user_headers : List (String × String)) (headers_to_unset : List String)
    (hu : ∀ p ∈ user_headers, p.1 ≠ "accept")
    (hx : ∀ x ∈ headers_to_unset, x ≠ "accept")
    (huc : ∀ p ∈ user_headers, p.1 ≠ "content-type")
    (hxc : ∀ x ∈ headers_to_unset, x ≠ "content-type") :
    hmLookup (finalizeHeaders user_agent body resume existing_file_size
        basic_credentials bearer user_headers headers_to_unset) "accept" =
      some (acceptValue body)
    ∧ (∀ fields, body = some (.Json fields) →
      hmLookup (finalizeHeaders user_agent body resume existing_file_size
        basic_credentials bearer user_headers headers_to_unset) "content-type" =
        some "application/json") := by
  constructor
  · rw [finalize_lookup_stable user_agent body resume existing_file_size
      basic_credentials bearer user_headers headers_to_unset "accept"
      (Or.inl (by decide)) (by decide) hu hx]
    cases body with
    | none =>
      simp only [bodyHeaders, acceptValue, List.foldl_cons, List.foldl_nil]
      exact hmLookup_insert_self _ _ _
    | some b =>
      cases b <;>
        simp only [bodyHeaders, acceptValue, List.foldl_cons, List.foldl_nil] <;>
        rw [hmLookup_insert_other _ _ _ _ (by decide)] <;>
        exact hmLookup_insert_self _ _ _
  · intro fields hb
    subst hb
    rw [finalize_lookup_stable user_agent (some (.Json fields)) resume
      existing_file_size basic_credentials bearer user_headers headers_to_unset
      "content-type" (Or.inl (by decide)) (by decide) huc hxc]
    simp only [bodyHeaders, List.foldl_cons, List.foldl_nil]
    exact hmLookup_insert_self _ _ _

theorem accept_header_from_body_witness :
    hmLookup (finalizeHeaders "xh/0.0.0" (some (.Json [("a", .str "b")])) false
        none none none [] []) "accept" = some "application/json, */*"
    ∧ hmLookup (finalizeHeaders "xh/0.0.0" (some (.Json [("a", .str "b")])) false
        none none none [] []) "content-type" = some "application/json" := by
  have h := accept_header_from_body "xh/0.0.0" (some (.Json [("a", .str "b")]))
    false none none none [] [] (by simp) (by simp) (by simp) (by simp)
  exact ⟨by simpa using h.1, h.2 _ rfl⟩
